import Mathlib

/-!
# Verification of the branching conversation store

Shallow embedding of the core logic of the chat application:

* the context-window assembler `manageContextWindow`
  (src/lib/ai/openrouter.ts and src/lib/services/text-extraction.ts — the two
  copies implement the same algorithm; the string-content variant is embedded,
  with multimodal content parts covered by `CPart`),
* the path enumeration of `GET /api/conversations/[id]/path` (identical code is
  duplicated inside the `POST` handler), including the fallback
  `buildPathFromBranch`,
* the path-switching `POST /api/conversations/[id]/path` handler,
* the message-edit `PUT /api/messages/[id]` handler,
* the `POST /api/chat/regenerate` handler's effect on the persisted state.

Conventions of the embedding:

* A message list stands for the result of `Message.find({conversationId}).sort({timestamp: 1})`;
  list order is creation-timestamp order, so the explicit timestamp field is dropped.
* JavaScript `Map` lookups (`messageMap.get`) are embedded as `findMsg`, a first-match
  scan; the two agree whenever message ids are distinct, which universally
  quantified theorems assume explicitly where it matters.
* The recursive walks of the source (`buildCommonHistory`, `buildSubsequent`,
  `buildBackwards`, `buildForwards`) are embedded with an explicit fuel of
  `msgs.length + 1`; on well-formed (acyclic) data the fuel is never exhausted,
  and on cyclic data the JavaScript version does not terminate at all.
-/

/-- Message role; the store's schema allows `user`/`assistant`, the AI-service
message type additionally has `system`. -/
inductive Role where
  | user
  | assistant
  | system
deriving DecidableEq, Repr

/-- An entry of a message's `versions` array (content snapshot). -/
structure VersionEntry where
  vcontent : String
  isCurrent : Bool
deriving DecidableEq, Repr

/-- An attachment descriptor; only the fields touched by the embedded handlers. -/
structure FileRec where
  fid : String
  uploadedAt : Option Nat
deriving DecidableEq, Repr

/-- A stored message document (schema of src/lib/db/models.ts restricted to the
fields the embedded handlers read or write). -/
structure Msg where
  id : String
  role : Role
  content : String
  parentId : Option String
  branchIndex : Int
  isActive : Bool
  edited : Bool
  versions : List VersionEntry
  files : List FileRec
deriving DecidableEq, Repr

/-- `messageMap.get(id)`: first message of the list with the given id. -/
def findMsg (msgs : List Msg) (id : String) : Option Msg :=
  msgs.find? (fun m => m.id == id)

/-- `parentLinkB msgs a b` holds when the message stored under id `b` has
`parentId = a`; this is the consecutive-entries condition of the Conversation
invariant (§3 of the specification). -/
def parentLinkB (msgs : List Msg) (a b : String) : Bool :=
  match findMsg msgs b with
  | some m => m.parentId == some a
  | none => false

/-- A list of ids whose consecutive entries satisfy the parent/child relation. -/
def parentChainB (msgs : List Msg) : List String → Bool
  | [] => true
  | [_] => true
  | a :: b :: rest => parentLinkB msgs a b && parentChainB msgs (b :: rest)

/-- Modelled from the spec (§3 Conversation invariant, for stating claims about
the validation the switch-path operation is said to perform): every id of the
list references an existing message and consecutive entries are parent-linked. -/
def specConnectedChainB (msgs : List Msg) (ids : List String) : Bool :=
  ids.all (fun i => (findMsg msgs i).isSome) && parentChainB msgs ids

section ContextWindow

/-- One element of a multimodal content array: a text part carries its text,
every other part (`image_url`, …) is opaque to the token estimator. -/
inductive CPart where
  | textPart (text : String)
  | otherPart
deriving DecidableEq, Repr

/-- Content of an AI-service message: a plain string or a content-part array. -/
inductive ChatContent where
  | str (s : String)
  | parts (ps : List CPart)
deriving DecidableEq, Repr

/-- A message in the shape handed to the completion service. -/
structure ChatMsg where
  role : Role
  content : ChatContent
deriving DecidableEq, Repr

/-- Token estimate of one content part: `content.type === 'text' && content.text`
selects non-empty text parts (`Math.ceil(text.length / 4)`); every other part —
including a text part with empty text, which is falsy — costs the fixed
estimate 100. -/
def partTokens : CPart → Nat
  | CPart.textPart t => if t.length = 0 then 100 else (t.length + 3) / 4
  | CPart.otherPart => 100

/-- Token estimate of one message (`Math.ceil(content.length / 4)` for plain
strings, sum of part estimates for arrays). -/
def msgTokens (m : ChatMsg) : Nat :=
  match m.content with
  | ChatContent.str s => (s.length + 3) / 4
  | ChatContent.parts ps => ps.foldl (fun sum p => sum + partTokens p) 0

/-- Total token estimate of a message list. -/
def totalTokens (l : List ChatMsg) : Nat :=
  (l.map msgTokens).sum

/-- The keep-loop of `manageContextWindow`: walk the (already reversed,
newest-first) non-system messages, keeping each while the running total stays
within the budget; the source `break`s — it stops at the first message that
would exceed the budget rather than skipping it. Returns the kept messages in
processing (newest-first) order. -/
def takeWhileBudget (maxTokens : Nat) : Nat → List ChatMsg → List ChatMsg
  | _, [] => []
  | total, m :: rest =>
    if total + msgTokens m > maxTokens then []
    else m :: takeWhileBudget maxTokens (total + msgTokens m) rest

/-- `manageContextWindow(messages, maxTokens)`: system messages are kept
unconditionally and their cost is charged first; the remaining messages are
processed newest-to-oldest and `unshift`ed onto the front of the result while
the budget allows. Since the result array starts as the system messages and
every kept message is `unshift`ed in newest-first order, the final array is the
kept messages in chronological order followed by the system messages. -/
def manageContextWindow (messages : List ChatMsg) (maxTokens : Nat := 8000) :
    List ChatMsg :=
  let systemMessages := messages.filter (fun m => m.role == Role.system)
  let sysTokens := systemMessages.foldl (fun sum m => sum + msgTokens m) 0
  let nonSystemMessages := (messages.filter (fun m => m.role != Role.system)).reverse
  (takeWhileBudget maxTokens sysTokens nonSystemMessages).reverse ++ systemMessages

end ContextWindow

-- Fixtures for the token-budget scenario of §8: `"short"` (older) and
-- `"a" + "x" * 300` (newer).

/-- The 301-character string `"a" + "x".repeat(300)`. -/
def longText : String := String.mk ('a' :: List.replicate 300 'x')

/-- The older, short message of the scenario. -/
def shortChatMsg : ChatMsg := { role := Role.user, content := ChatContent.str "short" }

/-- The newer, 301-character message of the scenario. -/
def longChatMsg : ChatMsg := { role := Role.user, content := ChatContent.str longText }

section PathBuilder

/-- Helper for `dedupFirst`: keep each element not seen before, remembering the
seen ones. -/
def dedupFirstAux {α : Type} [DecidableEq α] (seen : List α) : List α → List α
  | [] => []
  | x :: xs =>
    if x ∈ seen then dedupFirstAux seen xs
    else x :: dedupFirstAux (x :: seen) xs

/-- Keys of a JavaScript `Map` (and the `seenPaths : Set`) in insertion order:
first occurrence of each element, later duplicates dropped. -/
def dedupFirst {α : Type} [DecidableEq α] (l : List α) : List α :=
  dedupFirstAux [] l

/-- The keys of `regenerationBranches`: parent ids of assistant messages that
have a `parentId`, in first-occurrence (message creation) order. -/
def regenParents (msgs : List Msg) : List String :=
  dedupFirst (msgs.filterMap (fun m =>
    if m.role == Role.assistant then m.parentId else none))

/-- The values of `regenerationBranches` under one key: the assistant messages
whose `parentId` is `pid`, in creation order. -/
def regenChildren (msgs : List Msg) (pid : String) : List Msg :=
  msgs.filter (fun m => m.parentId == some pid && m.role == Role.assistant)

/-- `branchMessages.sort((a, b) => (a.branchIndex || 0) - (b.branchIndex || 0))`:
stable sort of the branch children by `branchIndex` ascending (JavaScript's
`Array.prototype.sort` is stable, as is insertion sort with `≤`). -/
def sortedChildren (msgs : List Msg) (pid : String) : List Msg :=
  (regenChildren msgs pid).insertionSort (fun a b => a.branchIndex ≤ b.branchIndex)

/-- `buildCommonHistory`: walk `parentId` pointers from `id` up, returning the
root-to-`id` id list. A missing message contributes nothing (the source's
`if (!message) return`). -/
def ancestors (msgs : List Msg) : Nat → String → List String
  | 0, _ => []
  | fuel + 1, id =>
    match findMsg msgs id with
    | none => []
    | some m =>
      match m.parentId with
      | some p => ancestors msgs fuel p ++ [id]
      | none => [id]

/-- The `find` inside `buildSubsequent`/`buildForwards`: the first message that
is a child of `m`, has `branchIndex` one more than `m`'s, and is not explicitly
inactive (`msg.isActive !== false`). -/
def nextActive (msgs : List Msg) (m : Msg) : Option Msg :=
  msgs.find? (fun c =>
    c.parentId == some m.id && c.branchIndex == m.branchIndex + 1 && c.isActive)

/-- `buildSubsequent`: linear forward walk from `id` through `nextActive`
children, collecting the ids found after `id`. -/
def buildSubsequent (msgs : List Msg) : Nat → String → List String
  | 0, _ => []
  | fuel + 1, id =>
    match findMsg msgs id with
    | none => []
    | some m =>
      match nextActive msgs m with
      | none => []
      | some c => c.id :: buildSubsequent msgs fuel c.id

/-- The branch-path collection of the `GET`/`POST` path handlers: for each
regeneration fork parent (skipped when the parent message is missing), the
common history up to the parent followed by each sorted child and its forward
walk. -/
def collectBranchPaths (msgs : List Msg) : List (List String) :=
  (regenParents msgs).flatMap (fun pid =>
    match findMsg msgs pid with
    | none => []
    | some u =>
      let common := ancestors msgs (msgs.length + 1) u.id
      (sortedChildren msgs pid).map (fun c =>
        common ++ c.id :: buildSubsequent msgs (msgs.length + 1) c.id))

/-- `buildBackwards` of `buildPathFromBranch`: like `ancestors` but with a
`visited` set (threaded through and returned, since `buildForwards` shares it). -/
def buildBackwards (msgs : List Msg) :
    Nat → List String → String → List String × List String
  | 0, vis, _ => ([], vis)
  | fuel + 1, vis, id =>
    if id ∈ vis then ([], vis)
    else
      let vis' := id :: vis
      match findMsg msgs id with
      | none => ([], vis')
      | some m =>
        match m.parentId with
        | some p =>
          let (anc, vis'') := buildBackwards msgs fuel vis' p
          (anc ++ [id], vis'')
        | none => ([id], vis')

/-- `buildForwards` of `buildPathFromBranch`: forward walk with the shared
`visited` set. The found child is pushed before the recursive call checks
`visited`, exactly as in the source. -/
def buildForwards (msgs : List Msg) :
    Nat → List String → String → List String × List String
  | 0, vis, _ => ([], vis)
  | fuel + 1, vis, id =>
    if id ∈ vis then ([], vis)
    else
      let vis' := id :: vis
      match findMsg msgs id with
      | none => ([], vis')
      | some m =>
        match nextActive msgs m with
        | none => ([], vis')
        | some c =>
          let (rest, vis'') := buildForwards msgs fuel vis' c.id
          (c.id :: rest, vis'')

/-- `buildPathFromBranch(branchMsg, messageMap)`: if `branchMsg` has no parent
in the map, the path is just `[branchMsg.id]`; otherwise the backward walk from
the parent, then `branchMsg.id`, then the forward walk. -/
def buildPathFromBranch (msgs : List Msg) (branchMsg : Msg) : List String :=
  match branchMsg.parentId.bind (findMsg msgs) with
  | none => [branchMsg.id]
  | some u =>
    let (back, vis) := buildBackwards msgs (msgs.length + 1) [] u.id
    let (fwd, _) := buildForwards msgs (msgs.length + 1) vis branchMsg.id
    back ++ branchMsg.id :: fwd

/-- One entry of the `paths` array returned by the handlers. -/
structure PathInfo where
  pid : String
  messages : List String
  isActive : Bool
deriving DecidableEq, Repr

/-- The id sequences the handlers push into `paths`, in order: the deduplicated
fork branches (`seenPaths` keeps first occurrences), falling back to
`buildPathFromBranch(allMessages[0])` when no fork branch was produced
(`paths.length === 0 && allMessages.length > 0`, with the handler's
`singlePath.length > 0` guard). -/
def rawPaths (msgs : List Msg) : List (List String) :=
  let raw := dedupFirst (collectBranchPaths msgs)
  if raw.isEmpty then
    match msgs with
    | [] => []
    | m0 :: _ =>
      let single := buildPathFromBranch msgs m0
      if single.isEmpty then [] else [single]
  else raw

/-- The full path enumeration of the `GET` handler (and, verbatim, of the
`pathId` branch of the `POST` handler): each collected path is tagged
`isActive = fullPath.every(msgId => conversation.activePath.includes(msgId))`
and named `path_<index>` in collection order. -/
def enumeratePaths (msgs : List Msg) (activePath : List String) : List PathInfo :=
  (rawPaths msgs).enum.map (fun pr =>
    { pid := "path_" ++ toString pr.1
      messages := pr.2
      isActive := pr.2.all (fun msgId => activePath.contains msgId) })

end PathBuilder

section Operations

/-- The persisted state of one conversation: its message documents (in creation
order) and the conversation record's `activePath`. -/
structure St where
  msgs : List Msg
  activePath : List String
deriving DecidableEq, Repr

/-- Errors surfaced by the switch-path handler. -/
inductive SwitchErr where
  | pathNotFound
deriving DecidableEq, Repr

/-- The request body of the switch-path `POST`: either a `pathId` or an explicit
`messageIds` list (the handler rejects a body with neither; `messageIds` wins
when present). -/
inductive PathReq where
  | byId (pathId : String)
  | byList (ids : List String)
deriving DecidableEq, Repr

/-- Phase one of the flag update:
`Message.updateMany({conversationId, userId}, {isActive: false})`. -/
def deactivateAll (msgs : List Msg) : List Msg :=
  msgs.map (fun m => { m with isActive := false })

/-- Phase two of the flag update:
`Message.updateMany({conversationId, userId, _id: {$in: newActivePath}}, {isActive: true})`. -/
def activateIn (msgs : List Msg) (ids : List String) : List Msg :=
  msgs.map (fun m => if ids.contains m.id then { m with isActive := true } else m)

/-- Both phases in the order the handler runs them: deactivate every message of
the conversation, then (only when `newActivePath` is non-empty) activate the
members of the new path. -/
def applyFlags (msgs : List Msg) (ids : List String) : List Msg :=
  let deactivated := deactivateAll msgs
  if ids.isEmpty then deactivated else activateIn deactivated ids

/-- The successful tail of the switch-path handler: store the resolved list as
`conversation.activePath`, then run the two-phase flag update. -/
def applySwitch (st : St) (ids : List String) : St × Option SwitchErr :=
  ({ msgs := applyFlags st.msgs ids, activePath := ids }, none)

/-- The intermediate states of the switch-path flag update, in execution order:
before, after phase one (deactivate all), after phase two. -/
def setActiveFlagsTrace (msgs : List Msg) (ids : List String) : List (List Msg) :=
  [msgs, deactivateAll msgs, applyFlags msgs ids]

/-- The switch-path `POST` handler. An explicit `messageIds` list is stored
unchanged (the handler performs no validation on it); a `pathId` is looked up in
the freshly computed enumeration, failing with `Path not found` — before any
write — when absent. On error the returned state is the unchanged input state. -/
def switchPath (st : St) (req : PathReq) : St × Option SwitchErr :=
  match req with
  | PathReq.byList ids => applySwitch st ids
  | PathReq.byId pathId =>
    match (enumeratePaths st.msgs st.activePath).find? (fun p => p.pid == pathId) with
    | none => (st, some SwitchErr.pathNotFound)
    | some selectedPath => applySwitch st selectedPath.messages

/-- The message-edit `PUT /api/messages/[id]` handler's update
(`findOneAndUpdate`): replaces `content`, sets `edited`, and maps the provided
files (defaulting each missing `uploadedAt` to now); `versions` is not part of
the update document. -/
def updateMessage (m : Msg) (content : String) (files : Option (List FileRec))
    (now : Nat) : Msg :=
  { m with
    content := content
    edited := true
    files :=
      match files with
      | none => m.files
      | some fs => fs.map (fun f => { f with uploadedAt := some (f.uploadedAt.getD now) }) }

/-- How a generation stream ends: the full response text arrives, or the stream
fails / is cancelled by the caller before completion. -/
inductive Outcome where
  | completed (full : String)
  | failed
deriving DecidableEq, Repr

/-- The persisted-state effect of `POST /api/chat/regenerate`: select the
context messages (the provided `activePath` when non-empty and matching, else
all), find the last user message (400 → `none` otherwise), save an active
placeholder assistant message with temporary content, store
`basePath ++ [newId]` as the conversation's `activePath`, and then stream: on
completion the placeholder's content is replaced by the full response; on a
streaming error or cancellation the handler only emits an error event — the
placeholder and the updated `activePath` are left as they are. -/
def regenerate (st : St) (reqPath : Option (List String)) (newId : String)
    (outcome : Outcome) : Option St :=
  let pathToUse := reqPath.getD st.activePath
  let conversationMessages :=
    if pathToUse.isEmpty then st.msgs
    else
      let activePathMessages := st.msgs.filter (fun m => pathToUse.contains m.id)
      if activePathMessages.isEmpty then st.msgs else activePathMessages
  if conversationMessages.isEmpty then none
  else
    match (conversationMessages.filter (fun m => m.role == Role.user)).getLast? with
    | none => none
    | some lastUserMessage =>
      let assistantMessage : Msg :=
        { id := newId
          role := Role.assistant
          content := "Generating response..."
          parentId := some lastUserMessage.id
          branchIndex := lastUserMessage.branchIndex + 1
          isActive := true
          edited := false
          versions := []
          files := [] }
      let basePath := reqPath.getD st.activePath
      let newActivePath := basePath ++ [newId]
      let msgs1 := st.msgs ++ [assistantMessage]
      let msgs2 :=
        match outcome with
        | Outcome.completed full =>
          msgs1.map (fun m => if m.id == newId then { m with content := full } else m)
        | Outcome.failed => msgs1
      some { msgs := msgs2, activePath := newActivePath }

end Operations

section Fixtures

/-- Builder for a stored message with empty edit history and no attachments. -/
def mkStoreMsg (id : String) (role : Role) (parentId : Option String)
    (bi : Int) (act : Bool) : Msg :=
  { id := id, role := role, content := "c", parentId := parentId,
    branchIndex := bi, isActive := act, edited := false, versions := [], files := [] }

/-- A conversation after one regeneration: root user message `u1`, its active
assistant reply `a1`, and an inactive regenerated sibling `a2`. -/
def msgsA : List Msg :=
  [mkStoreMsg "u1" Role.user none 0 true,
   mkStoreMsg "a1" Role.assistant (some "u1") 1 true,
   mkStoreMsg "a2" Role.assistant (some "u1") 1 false]

/-- A stored `activePath` containing `u1`, `a1` and a dangling id `ghost`
(reachable through the switch-path handler, which stores explicit `messageIds`
without validation). -/
def apA : List String := ["u1", "a1", "ghost"]

/-- Conversation state combining `msgsA` and `apA`. -/
def stA : St := { msgs := msgsA, activePath := apA }

/-- A linear two-message conversation (user `u1`, active assistant `a1`) whose
`activePath` lists both. -/
def stLin : St :=
  { msgs := [mkStoreMsg "u1" Role.user none 0 true,
             mkStoreMsg "a1" Role.assistant (some "u1") 1 true],
    activePath := ["u1", "a1"] }

/-- The state after regenerating `stLin` from `u1` (request `activePath =
["u1"]`, fresh id `a2`) when the stream completes with "Hello". -/
def stLinRegenOk : St :=
  (regenerate stLin (some ["u1"]) "a2" (Outcome.completed "Hello")).getD stLin

/-- The state after regenerating `stLin` from `u1` (request `activePath =
["u1"]`, fresh id `a2`) when the stream fails or is cancelled. -/
def stLinRegenAborted : St :=
  (regenerate stLin (some ["u1"]) "a2" Outcome.failed).getD stLin

/-- A one-message conversation used for the flag-update and validation claims. -/
def stOne : St :=
  { msgs := [mkStoreMsg "u1" Role.user none 0 true], activePath := ["u1"] }

/-- A system message with content "hello". -/
def sysHello : ChatMsg := { role := Role.system, content := ChatContent.str "hello" }

/-- A user message with content "hi". -/
def userHi : ChatMsg := { role := Role.user, content := ChatContent.str "hi" }

end Fixtures

section ClaimC5

/-- C5 (counterexample): with a budget of 40 and messages `["short", "a"+"x"*300]`
(the 301-character message being the newer), the context-window assembly does
NOT keep "short": the walk `break`s at the newest message, which alone exceeds
the budget, so the result is empty and the short message is discarded too. -/
theorem c5_counterexample :
    shortChatMsg ∉ manageContextWindow [shortChatMsg, longChatMsg] 40 := by
  set_option maxRecDepth 4000 in decide

/-- C5 (amended): with a budget of 40 the 301-character message alone exceeds
the budget (76 estimated tokens) while "short" would fit alone (2 tokens), but
because assembly stops at the first — newest — message that does not fit, both
are dropped and the result is empty. -/
theorem c5_scenario_amended :
    msgTokens longChatMsg = 76 ∧ 40 < msgTokens longChatMsg ∧
      msgTokens shortChatMsg ≤ 40 ∧
      manageContextWindow [shortChatMsg, longChatMsg] 40 = [] := by
  set_option maxRecDepth 4000 in decide

end ClaimC5

section ClaimC9

/-- Fixture message for the edit claim: a user message with an empty `versions`
history. -/
def mC9 : Msg := mkStoreMsg "m1" Role.user none 0 true

/-- C9 (counterexample): editing `mC9`'s content through the `PUT` update leaves
`versions` empty — no snapshot entry is appended (while `edited` is set). -/
theorem c9_counterexample :
    (updateMessage mC9 "new content" none 0).versions.length = mC9.versions.length ∧
      (updateMessage mC9 "new content" none 0).versions = [] ∧
      (updateMessage mC9 "new content" none 0).edited = true := by
  decide

/-- C9 (amended): for every message, a content edit through the update
operation replaces `content`, sets `edited = true`, and leaves the `versions`
list exactly as it was — no snapshot is appended. -/
theorem c9_update_sets_edited_not_versions (m : Msg) (content : String)
    (files : Option (List FileRec)) (now : Nat) :
    (updateMessage m content files now).edited = true ∧
      (updateMessage m content files now).versions = m.versions ∧
      (updateMessage m content files now).content = content := by
  simp [updateMessage]

end ClaimC9

section ClaimC8

/-- C8 (counterexample): switching a one-message conversation (its sole message
active) to the path `["u1"]` passes through an intermediate step of the
two-phase flag update — the state right after phase one — in which the
conversation is non-empty and zero messages are flagged active. -/
theorem c8_counterexample :
    ∃ s ∈ setActiveFlagsTrace stOne.msgs ["u1"],
      s ≠ [] ∧ ∀ m ∈ s, m.isActive = false := by
  decide

/-- C8 (amended): the two-phase update deactivates every message of the
conversation first (`updateMany {isActive: false}`) and only afterwards
activates the new path's members, so the intermediate step after phase one has
zero messages flagged active. -/
theorem c8_deactivate_first (msgs : List Msg) (ids : List String) :
    setActiveFlagsTrace msgs ids = [msgs, deactivateAll msgs, applyFlags msgs ids] ∧
      ∀ m ∈ deactivateAll msgs, m.isActive = false := by
  refine ⟨rfl, ?_⟩
  intro m hm
  simp only [deactivateAll, List.mem_map] at hm
  obtain ⟨m0, _, rfl⟩ := hm
  rfl

end ClaimC8

section ClaimC3

/-- C3 (counterexample): the switch-path handler accepts the explicit id list
`["ghost"]` for a conversation whose only message is `u1`: the list is
non-empty and not a connected parent-chain (it references no existing message),
yet the operation succeeds and stores it as `activePath` — no
`InvalidPathError` is raised. -/
theorem c3_counterexample :
    specConnectedChainB stOne.msgs ["ghost"] = false ∧ ["ghost"] ≠ ([] : List String) ∧
      (switchPath stOne (PathReq.byList ["ghost"])).2 = none ∧
      (switchPath stOne (PathReq.byList ["ghost"])).1.activePath = ["ghost"] := by
  decide

/-- C3 (amended): an explicit `messageIds` list is never validated — for every
state and every list, the switch-path operation succeeds and stores the list
verbatim as the conversation's `activePath`. -/
theorem c3_no_validation (st : St) (ids : List String) :
    (switchPath st (PathReq.byList ids)).2 = none ∧
      (switchPath st (PathReq.byList ids)).1.activePath = ids := by
  exact ⟨rfl, rfl⟩

end ClaimC3

section ClaimC4

/-- C4: switching to a `pathId` that is absent from the current path
enumeration fails with the path-not-found error and returns the conversation
state — `activePath` included — completely unchanged: the handler returns the
404 before performing any write. -/
theorem c4_path_not_found (st : St) (pathId : String)
    (h : ∀ p ∈ enumeratePaths st.msgs st.activePath, p.pid ≠ pathId) :
    switchPath st (PathReq.byId pathId) = (st, some SwitchErr.pathNotFound) := by
  have hfind : (enumeratePaths st.msgs st.activePath).find?
      (fun p => p.pid == pathId) = none := by
    apply List.find?_eq_none.mpr
    intro p hp
    simpa using h p hp
  simp [switchPath, hfind]

/-- Witness for C4: `stA` enumerates exactly `path_0` and `path_1`, so switching
to `path_9` fails with the path-not-found error and leaves the state unchanged. -/
theorem c4_witness :
    (∀ p ∈ enumeratePaths stA.msgs stA.activePath, p.pid ≠ "path_9") ∧
      switchPath stA (PathReq.byId "path_9") = (stA, some SwitchErr.pathNotFound) :=
  ⟨by decide, c4_path_not_found stA "path_9" (by decide)⟩

end ClaimC4

section ClaimC2

/-- C2 (counterexample): for the conversation `msgsA` with stored
`activePath = ["u1", "a1", "ghost"]` the enumeration tags the branch
`["u1", "a1"]` with `isActive = true` although its id sequence is not equal to
the `activePath` — the source tags by containment
(`fullPath.every(msgId => activePath.includes(msgId))`), not by equality. -/
theorem c2_counterexample :
    ∃ p ∈ enumeratePaths msgsA apA, p.isActive = true ∧ p.messages ≠ apA := by
  decide

/-- C2 (amended): every branch produced by the path enumeration is tagged
`isActive = true` exactly when every id of the branch appears somewhere in the
conversation's `activePath` (a containment test: order, multiplicity and extra
`activePath` entries are ignored). -/
theorem c2_active_tag_is_containment (msgs : List Msg) (activePath : List String) :
    ∀ p ∈ enumeratePaths msgs activePath,
      p.isActive = p.messages.all (fun msgId => activePath.contains msgId) := by
  intro p hp
  simp only [enumeratePaths, List.mem_map] at hp
  obtain ⟨⟨i, q⟩, _, rfl⟩ := hp
  rfl

/-- Witness for C2 (amended): the tag of `path_0` of the fixture conversation
equals the containment test of its ids. -/
theorem c2_witness :
    ({ pid := "path_0", messages := ["u1", "a1"], isActive := true } : PathInfo) ∈
        enumeratePaths msgsA apA ∧
      (true : Bool) = ["u1", "a1"].all (fun msgId => apA.contains msgId) :=
  ⟨by decide, c2_active_tag_is_containment msgsA apA
    { pid := "path_0", messages := ["u1", "a1"], isActive := true } (by decide)⟩

end ClaimC2

section ClaimC1

/-- After both phases of the flag update, a message is flagged active exactly
when its id is in the stored path. -/
theorem applyFlags_isActive (msgs : List Msg) (ids : List String) :
    ∀ m ∈ applyFlags msgs ids, m.isActive = ids.contains m.id := by
  intro m hm
  by_cases hids : ids.isEmpty
  · simp only [applyFlags, hids, if_pos] at hm
    simp only [deactivateAll, List.mem_map] at hm
    obtain ⟨m0, _, rfl⟩ := hm
    rcases ids with _ | ⟨x, xs⟩
    · rfl
    · simp [List.isEmpty] at hids
  · simp only [applyFlags, hids, if_neg, Bool.not_eq_true] at hm
    simp only [activateIn, deactivateAll, List.map_map, List.mem_map] at hm
    obtain ⟨m0, _, rfl⟩ := hm
    by_cases hmem : m0.id ∈ ids
    · simp [Function.comp, hmem]
    · simp [Function.comp, hmem]

/-- C1 (counterexample): regenerating `stLin` from `u1` (the client supplies
`activePath = ["u1"]`, as the front end does when excluding the old assistant
reply) succeeds, yet leaves the old assistant message `a1` flagged active while
`a1` no longer appears in the new `activePath = ["u1", "a2"]` — the
`isActive ⟺ id ∈ activePath` invariant does not survive this mutation. -/
theorem c1_counterexample :
    regenerate stLin (some ["u1"]) "a2" (Outcome.completed "Hello") =
        some stLinRegenOk ∧
      ∃ m ∈ stLinRegenOk.msgs,
        m.isActive = true ∧ stLinRegenOk.activePath.contains m.id = false := by
  decide

/-- C1 (amended): the `isActive ⟺ id ∈ activePath` invariant is established by
the switch-path operation: after every successful switch, each stored message
of the conversation is flagged active exactly when its id is in the new
`activePath`. (Regeneration does not maintain it, see the counterexample.) -/
theorem c1_switch_invariant (st : St) (req : PathReq) (st' : St)
    (h : switchPath st req = (st', none)) :
    ∀ m ∈ st'.msgs, m.isActive = st'.activePath.contains m.id := by
  rcases req with pathId | ids
  · simp only [switchPath] at h
    rcases hfind : (enumeratePaths st.msgs st.activePath).find?
        (fun p => p.pid == pathId) with _ | p
    · rw [hfind] at h
      exact absurd (congrArg Prod.snd h) (by simp)
    · rw [hfind] at h
      simp only [applySwitch, Prod.mk.injEq] at h
      obtain ⟨rfl, -⟩ := h
      exact applyFlags_isActive st.msgs p.messages
  · simp only [switchPath, applySwitch, Prod.mk.injEq] at h
    obtain ⟨rfl, -⟩ := h
    exact applyFlags_isActive st.msgs ids

/-- Witness for C1 (amended): switching `stLin` to the explicit path `["u1"]`
succeeds, and in the resulting state every message's flag equals membership of
its id in the new `activePath`. -/
theorem c1_witness :
    switchPath stLin (PathReq.byList ["u1"]) =
        ((switchPath stLin (PathReq.byList ["u1"])).1, none) ∧
      ∀ m ∈ (switchPath stLin (PathReq.byList ["u1"])).1.msgs,
        m.isActive =
          (switchPath stLin (PathReq.byList ["u1"])).1.activePath.contains m.id :=
  ⟨by decide,
   c1_switch_invariant stLin (PathReq.byList ["u1"])
     (switchPath stLin (PathReq.byList ["u1"])).1 (by decide)⟩

end ClaimC1

section ClaimC7

/-- C7 (counterexample): when the generation stream for the regeneration of
`stLin` fails or is cancelled, the placeholder assistant message `a2` is NOT
deleted: it stays in the store with its temporary content, it remains flagged
active, and the conversation's `activePath` keeps the new value
`["u1", "a2"]` instead of reverting to `["u1", "a1"]`. -/
theorem c7_counterexample :
    regenerate stLin (some ["u1"]) "a2" Outcome.failed = some stLinRegenAborted ∧
      (∃ m ∈ stLinRegenAborted.msgs,
        m.id = "a2" ∧ m.isActive = true ∧ m.content = "Generating response...") ∧
      stLinRegenAborted.activePath.contains "a2" = true ∧
      stLinRegenAborted.activePath ≠ stLin.activePath := by
  decide

/-- C7 (amended): whenever a regeneration whose stream fails or is cancelled
reaches the streaming stage (i.e. the handler returns a state), the placeholder
assistant message persists in the store with the temporary content
"Generating response...", stays flagged active, and its id remains in the
stored `activePath` — nothing is deleted or reverted; only the client's local
display removes it. -/
theorem c7_aborted_placeholder_persists (st : St) (reqPath : Option (List String))
    (newId : String) (st' : St)
    (h : regenerate st reqPath newId Outcome.failed = some st') :
    newId ∈ st'.activePath ∧
      ∃ m ∈ st'.msgs,
        m.id = newId ∧ m.isActive = true ∧ m.content = "Generating response..." := by
  simp only [regenerate] at h
  repeat' split at h
  any_goals exact Option.noConfusion h
  all_goals
    obtain rfl := Option.some.inj h
  all_goals
    exact ⟨List.mem_append_right _ (List.mem_singleton.mpr rfl),
      _, List.mem_append_right _ (List.mem_singleton.mpr rfl), rfl, rfl, rfl⟩

/-- Witness for C7 (amended): instantiated at the aborted regeneration of
`stLin`. -/
theorem c7_witness :
    "a2" ∈ stLinRegenAborted.activePath ∧
      ∃ m ∈ stLinRegenAborted.msgs,
        m.id = "a2" ∧ m.isActive = true ∧ m.content = "Generating response..." :=
  c7_aborted_placeholder_persists stLin (some ["u1"]) "a2" stLinRegenAborted
    (by decide)

end ClaimC7

section ClaimC6

/-- The source's running-sum `reduce`/`foldl` equals the start value plus the
total token estimate. -/
theorem foldl_tokens (l : List ChatMsg) (n : Nat) :
    l.foldl (fun sum m => sum + msgTokens m) n = n + totalTokens l := by
  induction l generalizing n with
  | nil => simp [totalTokens]
  | cons m rest ih =>
    simp only [List.foldl_cons, ih, totalTokens, List.map_cons, List.sum_cons]
    omega

/-- The keep-loop invariant: starting from any running total within the budget,
the total plus the cost of everything it keeps stays within the budget. -/
theorem takeWhileBudget_total (maxTokens : Nat) (l : List ChatMsg) :
    ∀ total, total ≤ maxTokens →
      total + totalTokens (takeWhileBudget maxTokens total l) ≤ maxTokens := by
  induction l with
  | nil => intro total h; simpa [takeWhileBudget, totalTokens] using h
  | cons m rest ih =>
    intro total h
    by_cases hfit : total + msgTokens m > maxTokens
    · simp only [takeWhileBudget, if_pos hfit]
      simpa [totalTokens] using h
    · simp only [takeWhileBudget, if_neg hfit]
      have := ih (total + msgTokens m) (by omega)
      simp only [totalTokens, List.map_cons, List.sum_cons] at this ⊢
      omega

/-- C6 (counterexample): with budget 1 and a single system message "hello"
(2 estimated tokens), the context-window manager returns the system message
unconditionally and the returned list's total cost exceeds the budget. -/
theorem c6_counterexample :
    totalTokens (manageContextWindow [sysHello] 1) = 2 ∧
      ¬ totalTokens (manageContextWindow [sysHello] 1) ≤ 1 := by
  decide

/-- C6 (amended): whenever the unconditionally kept system messages alone fit
the budget, the total estimated token cost of the list returned by the
context-window manager — system cost included — is at most the budget. (When
the system messages alone exceed the budget the bound fails, see the
counterexample.) -/
theorem c6_budget_with_system (messages : List ChatMsg) (maxTokens : Nat)
    (h : totalTokens (messages.filter (fun m => m.role == Role.system)) ≤ maxTokens) :
    totalTokens (manageContextWindow messages maxTokens) ≤ maxTokens := by
  simp only [manageContextWindow, foldl_tokens, Nat.zero_add]
  set sys := messages.filter (fun m => m.role == Role.system) with hsys
  set nonSys := (messages.filter (fun m => m.role != Role.system)).reverse with hns
  have hkeep := takeWhileBudget_total maxTokens nonSys (totalTokens sys) h
  have hsplit :
      totalTokens ((takeWhileBudget maxTokens (totalTokens sys) nonSys).reverse ++ sys) =
        totalTokens (takeWhileBudget maxTokens (totalTokens sys) nonSys) +
          totalTokens sys := by
    simp [totalTokens, List.map_reverse, List.sum_reverse, List.map_append]
  rw [hsplit]
  omega

/-- Witness for C6 (amended): a system message and a user message within a
budget of 100. -/
theorem c6_witness :
    totalTokens ([sysHello, userHi].filter (fun m => m.role == Role.system)) ≤ 100 ∧
      totalTokens (manageContextWindow [sysHello, userHi] 100) ≤ 100 :=
  ⟨by decide, c6_budget_with_system [sysHello, userHi] 100 (by decide)⟩

end ClaimC6

section ClaimC10

/-- A successful `findMsg` lookup returns a message carrying the looked-up id. -/
theorem findMsg_id {msgs : List Msg} {i : String} {m : Msg}
    (h : findMsg msgs i = some m) : m.id = i := by
  have := List.find?_some h
  simpa using this

/-- A successful `findMsg` lookup returns a member of the list. -/
theorem findMsg_mem {msgs : List Msg} {i : String} {m : Msg}
    (h : findMsg msgs i = some m) : m ∈ msgs :=
  List.mem_of_find?_eq_some h

/-- With pairwise-distinct ids, looking up a member's id finds that member. -/
theorem findMsg_of_mem {msgs : List Msg} (h : (msgs.map Msg.id).Nodup) {m : Msg}
    (hm : m ∈ msgs) : findMsg msgs m.id = some m := by
  induction msgs with
  | nil => cases hm
  | cons m0 t ih =>
    simp only [List.map_cons, List.nodup_cons] at h
    rcases List.mem_cons.mp hm with rfl | hmt
    · simp [findMsg]
    · have hne : (m0.id == m.id) = false := by
        apply beq_false_of_ne
        intro hEq
        exact h.1 (hEq ▸ List.mem_map_of_mem Msg.id hmt)
      simpa [findMsg, List.find?, hne] using ih h.2 hmt

/-- `parentChainB` is the boolean form of `List.Chain'` over `parentLinkB`. -/
theorem parentChainB_eq_chain' (msgs : List Msg) :
    ∀ l : List String,
      parentChainB msgs l = true ↔
        List.Chain' (fun a b => parentLinkB msgs a b = true) l := by
  intro l
  match l with
  | [] => simp [parentChainB]
  | [_] => simp [parentChainB]
  | a :: b :: rest =>
    rw [List.chain'_cons, ← parentChainB_eq_chain' msgs (b :: rest)]
    simp [parentChainB, Bool.and_eq_true]

/-- If the ancestor walk returns anything, its last element is the start id. -/
theorem ancestors_getLast (msgs : List Msg) :
    ∀ (fuel : Nat) (id x : String),
      (ancestors msgs fuel id).getLast? = some x → x = id := by
  intro fuel
  induction fuel with
  | zero => intro id x hx; simp [ancestors] at hx
  | succ fuel ih =>
    intro id x hx
    simp only [ancestors] at hx
    split at hx
    · simp at hx
    · split at hx
      · rw [List.getLast?_concat] at hx
        exact (Option.some.inj hx).symm
      · simp at hx
        exact hx.symm

/-- The ancestor walk produces a parent-linked chain. -/
theorem ancestors_chain (msgs : List Msg) :
    ∀ (fuel : Nat) (id : String),
      List.Chain' (fun a b => parentLinkB msgs a b = true) (ancestors msgs fuel id) := by
  intro fuel
  induction fuel with
  | zero => intro id; simp [ancestors]
  | succ fuel ih =>
    intro id
    simp only [ancestors]
    split
    · simp
    · rename_i m hfind
      split
      · rename_i p hpar
        rw [List.chain'_append]
        refine ⟨ih p, List.chain'_singleton _, ?_⟩
        intro x hx y hy
        obtain rfl := ancestors_getLast msgs fuel p x hx
        simp only [List.head?_cons, Option.mem_def, Option.some.injEq] at hy
        subst hy
        simp [parentLinkB, hfind, hpar]
      · simp

/-- The head of a forward walk from `id` is parent-linked to `id`
(distinct ids required so the found child looks itself up). -/
theorem buildSubsequent_head (msgs : List Msg) (h : (msgs.map Msg.id).Nodup) :
    ∀ (fuel : Nat) (id c : String),
      (buildSubsequent msgs fuel id).head? = some c → parentLinkB msgs id c = true := by
  intro fuel id c hc
  match fuel with
  | 0 => simp [buildSubsequent] at hc
  | fuel + 1 =>
    simp only [buildSubsequent] at hc
    split at hc
    · simp at hc
    · rename_i m hfind
      split at hc
      · simp at hc
      · rename_i c0 hnext
        simp only [List.head?_cons, Option.some.injEq] at hc
        subst hc
        have hc0mem : c0 ∈ msgs := List.mem_of_find?_eq_some hnext
        have hprop := List.find?_some hnext
        simp only [Bool.and_eq_true, beq_iff_eq] at hprop
        have hpar : c0.parentId = some m.id := hprop.1.1
        have hid : m.id = id := findMsg_id hfind
        simp [parentLinkB, findMsg_of_mem h hc0mem, hpar, hid]

/-- The forward walk produces a parent-linked chain (distinct ids required). -/
theorem buildSubsequent_chain (msgs : List Msg) (h : (msgs.map Msg.id).Nodup) :
    ∀ (fuel : Nat) (id : String),
      List.Chain' (fun a b => parentLinkB msgs a b = true)
        (buildSubsequent msgs fuel id) := by
  intro fuel
  induction fuel with
  | zero => intro id; simp [buildSubsequent]
  | succ fuel ih =>
    intro id
    simp only [buildSubsequent]
    split
    · simp
    · split
      · simp
      · rename_i c0 hnext
        rw [List.chain'_cons']
        refine ⟨?_, ih c0.id⟩
        intro y hy
        exact buildSubsequent_head msgs h fuel c0.id y hy

/-- Everything `dedupFirstAux` keeps comes from its input list. -/
theorem dedupFirstAux_subset {α : Type} [DecidableEq α] :
    ∀ (l seen : List α) (x : α), x ∈ dedupFirstAux seen l → x ∈ l := by
  intro l
  induction l with
  | nil => intro seen x hx; simp [dedupFirstAux] at hx
  | cons a t ih =>
    intro seen x hx
    simp only [dedupFirstAux] at hx
    by_cases ha : a ∈ seen
    · rw [if_pos ha] at hx
      exact List.mem_cons_of_mem a (ih seen x hx)
    · rw [if_neg ha] at hx
      rcases List.mem_cons.mp hx with rfl | hx'
      · exact List.mem_cons_self x t
      · exact List.mem_cons_of_mem a (ih (a :: seen) x hx')

/-- If the backward walk returns anything, its last element is the start id. -/
theorem buildBackwards_getLast (msgs : List Msg) :
    ∀ (fuel : Nat) (vis : List String) (id x : String),
      (buildBackwards msgs fuel vis id).1.getLast? = some x → x = id := by
  intro fuel
  induction fuel with
  | zero => intro vis id x hx; simp [buildBackwards] at hx
  | succ fuel ih =>
    intro vis id x hx
    simp only [buildBackwards] at hx
    split at hx
    · simp at hx
    · split at hx
      · simp at hx
      · rename_i m hfind
        split at hx
        · rename_i p hpar
          rcases hbb : buildBackwards msgs fuel (id :: vis) p with ⟨anc, vis2⟩
          rw [hbb] at hx
          simp only [List.getLast?_concat] at hx
          exact (Option.some.inj hx).symm
        · simp at hx
          exact hx.symm

/-- The backward walk produces a parent-linked chain. -/
theorem buildBackwards_chain (msgs : List Msg) :
    ∀ (fuel : Nat) (vis : List String) (id : String),
      List.Chain' (fun a b => parentLinkB msgs a b = true)
        (buildBackwards msgs fuel vis id).1 := by
  intro fuel
  induction fuel with
  | zero => intro vis id; simp [buildBackwards]
  | succ fuel ih =>
    intro vis id
    simp only [buildBackwards]
    split
    · simp
    · split
      · simp
      · rename_i m hfind
        split
        · rename_i p hpar
          rcases hbb : buildBackwards msgs fuel (id :: vis) p with ⟨anc, vis2⟩
          show List.Chain' (fun a b => parentLinkB msgs a b = true) (anc ++ [id])
          rw [List.chain'_append]
          refine ⟨by simpa [hbb] using ih (id :: vis) p, List.chain'_singleton _, ?_⟩
          intro x hx y hy
          have : anc.getLast? = some x := hx
          obtain rfl := buildBackwards_getLast msgs fuel (id :: vis) p x (by rw [hbb]; exact this)
          simp only [List.head?_cons, Option.mem_def, Option.some.injEq] at hy
          subst hy
          simp [parentLinkB, hfind, hpar]
        · simp

/-- The head of the shared-visited forward walk from `id` is parent-linked to
`id` (distinct ids required). -/
theorem buildForwards_head (msgs : List Msg) (h : (msgs.map Msg.id).Nodup) :
    ∀ (fuel : Nat) (vis : List String) (id c : String),
      (buildForwards msgs fuel vis id).1.head? = some c →
        parentLinkB msgs id c = true := by
  intro fuel vis id c hc
  match fuel with
  | 0 => simp [buildForwards] at hc
  | fuel + 1 =>
    simp only [buildForwards] at hc
    split at hc
    · simp at hc
    · split at hc
      · simp at hc
      · rename_i m hfind
        split at hc
        · simp at hc
        · rename_i c0 hnext
          rcases hbf : buildForwards msgs fuel (id :: vis) c0.id with ⟨rest, vis2⟩
          rw [hbf] at hc
          simp only [List.head?_cons, Option.some.injEq] at hc
          subst hc
          have hc0mem : c0 ∈ msgs := List.mem_of_find?_eq_some hnext
          have hprop := List.find?_some hnext
          simp only [Bool.and_eq_true, beq_iff_eq] at hprop
          have hpar : c0.parentId = some m.id := hprop.1.1
          have hid : m.id = id := findMsg_id hfind
          simp [parentLinkB, findMsg_of_mem h hc0mem, hpar, hid]

/-- The shared-visited forward walk produces a parent-linked chain. -/
theorem buildForwards_chain (msgs : List Msg) (h : (msgs.map Msg.id).Nodup) :
    ∀ (fuel : Nat) (vis : List String) (id : String),
      List.Chain' (fun a b => parentLinkB msgs a b = true)
        (buildForwards msgs fuel vis id).1 := by
  intro fuel
  induction fuel with
  | zero => intro vis id; simp [buildForwards]
  | succ fuel ih =>
    intro vis id
    simp only [buildForwards]
    split
    · simp
    · split
      · simp
      · split
        · simp
        · rename_i c0 hnext
          rcases hbf : buildForwards msgs fuel (id :: vis) c0.id with ⟨rest, vis2⟩
          show List.Chain' (fun a b => parentLinkB msgs a b = true) (c0.id :: rest)
          rw [List.chain'_cons']
          refine ⟨?_, by simpa [hbf] using ih (id :: vis) c0.id⟩
          intro y hy
          exact buildForwards_head msgs h fuel (id :: vis) c0.id y (by rw [hbf]; exact hy)

/-- The fallback `buildPathFromBranch` returns a non-empty parent-linked chain
(distinct ids required). -/
theorem buildPathFromBranch_spec (msgs : List Msg) (h : (msgs.map Msg.id).Nodup)
    (branchMsg : Msg) (hmem : branchMsg ∈ msgs) :
    buildPathFromBranch msgs branchMsg ≠ [] ∧
      List.Chain' (fun a b => parentLinkB msgs a b = true)
        (buildPathFromBranch msgs branchMsg) := by
  unfold buildPathFromBranch
  rcases hres : branchMsg.parentId.bind (findMsg msgs) with _ | u
  · simp
  · obtain ⟨pid, hpid, hfindp⟩ := Option.bind_eq_some.mp hres
    have huid : u.id = pid := findMsg_id hfindp
    rcases hbb : buildBackwards msgs (msgs.length + 1) [] u.id with ⟨back, vis⟩
    rcases hbf : buildForwards msgs (msgs.length + 1) vis branchMsg.id with ⟨fwd, vis2⟩
    simp only [hbb, hbf]
    refine ⟨by simp, ?_⟩
    rw [List.chain'_append]
    refine ⟨by simpa [hbb] using buildBackwards_chain msgs (msgs.length + 1) [] u.id,
      ?_, ?_⟩
    · rw [List.chain'_cons']
      refine ⟨?_, by simpa [hbf] using
        buildForwards_chain msgs h (msgs.length + 1) vis branchMsg.id⟩
      intro y hy
      exact buildForwards_head msgs h (msgs.length + 1) vis branchMsg.id y
        (by rw [hbf]; exact hy)
    · intro x hx y hy
      obtain rfl := buildBackwards_getLast msgs (msgs.length + 1) [] u.id x
        (by rw [hbb]; exact hx)
      simp only [List.head?_cons, Option.mem_def, Option.some.injEq] at hy
      subst hy
      simp [parentLinkB, findMsg_of_mem h hmem, hpid, huid]

/-- Every fork branch collected by the enumeration is a non-empty parent-linked
chain (distinct ids required). -/
theorem collectBranchPaths_spec (msgs : List Msg) (h : (msgs.map Msg.id).Nodup) :
    ∀ p ∈ collectBranchPaths msgs,
      p ≠ [] ∧ List.Chain' (fun a b => parentLinkB msgs a b = true) p := by
  intro p hp
  simp only [collectBranchPaths, List.mem_flatMap] at hp
  obtain ⟨pid, hpid, hp⟩ := hp
  split at hp
  · simp at hp
  · rename_i u hfind
    simp only [List.mem_map] at hp
    obtain ⟨c, hcmem, rfl⟩ := hp
    have hcreg : c ∈ regenChildren msgs pid :=
      (List.perm_insertionSort _ _).mem_iff.mp hcmem
    have hcmsgs : c ∈ msgs := List.mem_of_mem_filter hcreg
    have hcprop := List.of_mem_filter hcreg
    simp only [Bool.and_eq_true, beq_iff_eq] at hcprop
    have hcpar : c.parentId = some pid := hcprop.1
    have huid : u.id = pid := findMsg_id hfind
    refine ⟨by simp, ?_⟩
    rw [List.chain'_append]
    refine ⟨ancestors_chain msgs (msgs.length + 1) u.id, ?_, ?_⟩
    · rw [List.chain'_cons']
      exact ⟨fun y hy => buildSubsequent_head msgs h (msgs.length + 1) c.id y hy,
        buildSubsequent_chain msgs h (msgs.length + 1) c.id⟩
    · intro x hx y hy
      obtain rfl := ancestors_getLast msgs (msgs.length + 1) u.id x hx
      simp only [List.head?_cons, Option.mem_def, Option.some.injEq] at hy
      subst hy
      simp [parentLinkB, findMsg_of_mem h hcmsgs, hcpar, huid]

/-- C10: provided the conversation's message ids are pairwise distinct, every
branch returned by the path enumeration is a non-empty id sequence whose
consecutive pairs are parent-linked: the message stored under each later id has
`parentId` equal to the preceding id — every reported branch is a connected
parent-chain over the conversation's messages. -/
theorem c10_branches_are_parent_chains (msgs : List Msg) (activePath : List String)
    (h : (msgs.map Msg.id).Nodup) :
    ∀ p ∈ enumeratePaths msgs activePath,
      p.messages ≠ [] ∧ parentChainB msgs p.messages = true := by
  have hraw : ∀ q ∈ rawPaths msgs,
      q ≠ [] ∧ List.Chain' (fun a b => parentLinkB msgs a b = true) q := by
    intro q hq
    simp only [rawPaths] at hq
    split at hq
    · split at hq
      · simp at hq
      · split at hq
        · simp at hq
        · simp only [List.mem_singleton] at hq
          subst hq
          exact buildPathFromBranch_spec _ h _ (List.mem_cons_self _ _)
    · exact collectBranchPaths_spec msgs h q (dedupFirstAux_subset _ _ q hq)
  intro p hp
  simp only [enumeratePaths, List.mem_map] at hp
  obtain ⟨⟨i, q⟩, hq, rfl⟩ := hp
  have hq' : q ∈ rawPaths msgs := by
    have hmapped : (i, q).2 ∈ (rawPaths msgs).enum.map Prod.snd :=
      List.mem_map_of_mem Prod.snd hq
    simpa [List.enum_map_snd] using hmapped
  obtain ⟨hne, hchain⟩ := hraw q hq'
  exact ⟨hne, (parentChainB_eq_chain' msgs _).mpr hchain⟩

/-- Witness for C10: the fixture conversation has distinct ids and its first
enumerated branch `["u1", "a1"]` is a non-empty connected parent-chain. -/
theorem c10_witness :
    (msgsA.map Msg.id).Nodup ∧
      ({ pid := "path_0", messages := ["u1", "a1"], isActive := true } : PathInfo) ∈
        enumeratePaths msgsA apA ∧
      (["u1", "a1"] ≠ ([] : List String) ∧ parentChainB msgsA ["u1", "a1"] = true) :=
  ⟨by decide, by decide,
   c10_branches_are_parent_chains msgsA apA (by decide)
     { pid := "path_0", messages := ["u1", "a1"], isActive := true } (by decide)⟩

end ClaimC10
